import Mathlib

/-!
Shallow embedding of the stablecoin-arbitrage trading system (TypeScript
sources) and verification of its stated properties.

Conventions of the embedding:
* TypeScript `bigint` amounts are modelled as `Int`; JavaScript `bigint`
  division truncates toward zero, which is `Int.tdiv` (never the `/`
  notation, which on `Int` is Euclidean division).
* Asynchronous calls to external backends (RPC nodes, HTTP APIs) are
  modelled by explicit outcome oracles: a field of type `Except String α`
  stands for one awaited call that either returns a value or throws.
* A thrown JavaScript exception is the `Except.error` case; a `try/catch`
  block is a `match` on the `Except` value.
* Side effects that the claims observe (which quote requests were issued,
  which executor calls were made) are made explicit by returning a trace
  list alongside the result.
-/

namespace Trading

/-- ERC-20 token description (src/types/quote.ts, `Token`). -/
structure Token where
  address : String
  decimals : Nat
  symbol : String
  chainId : Nat
deriving DecidableEq, Repr

/-- A quote returned by one provider (src/types/quote.ts, `Quote`). -/
structure Quote where
  provider : String
  amountOut : Int
  estimatedGas : Option Int := none
  route : Option (List String) := none
  fee : Option Int := none
  timestamp : Int := 0
deriving DecidableEq, Repr

/-- src/utils/decimals.ts `normalizeDecimals`: rescale an integer amount
between decimal bases.  Scaling down is JavaScript `bigint` division,
i.e. truncation toward zero (`Int.tdiv`); scaling up is exact
multiplication. -/
def normalizeDecimals (amount : Int) (fromDecimals toDecimals : Nat) : Int :=
  if fromDecimals = toDecimals then
    amount
  else if fromDecimals > toDecimals then
    amount.tdiv ((10 : Int) ^ (fromDecimals - toDecimals))
  else
    amount * (10 : Int) ^ (toDecimals - fromDecimals)

/-- src/utils/profit.ts `calculateProfitBps`: profit in basis points.
Normalizes `amountOut` to the input token's decimal basis, returns 0 when
`amountIn` is zero, otherwise `((normalized - amountIn) * 10000) / amountIn`
in `bigint` arithmetic (truncated division). -/
def calculateProfitBps (amountIn amountOut : Int) (tokenIn tokenOut : Token) : Int :=
  let normalizedAmountOut := normalizeDecimals amountOut tokenOut.decimals tokenIn.decimals
  if amountIn = 0 then 0
  else
    let difference := normalizedAmountOut - amountIn
    (difference * 10000).tdiv amountIn

/-- src/utils/profit.ts `calculateMinAmountOut`:
`expectedAmountOut * (10000 - slippageBps) / 10000` in `bigint`
arithmetic (truncated division). -/
def calculateMinAmountOut (expectedAmountOut : Int) (slippageBps : Int) : Int :=
  let multiplier := 10000 - slippageBps
  (expectedAmountOut * multiplier).tdiv 10000

/-- Truncated division by a positive divisor is monotone. -/
theorem tdiv_le_tdiv_right {a b d : Int} (hd : 0 < d) (h : a ≤ b) :
    a.tdiv d ≤ b.tdiv d := by
  rcases le_or_lt 0 a with ha | ha
  · rw [Int.tdiv_eq_ediv ha hd.le, Int.tdiv_eq_ediv (ha.trans h) hd.le]
    exact Int.ediv_le_ediv hd h
  · rcases le_or_lt 0 b with hb | hb
    · have h1 : a.tdiv d ≤ 0 := by
        have : a.tdiv d = -((-a).tdiv d) := by
          rw [Int.neg_tdiv, neg_neg]
        rw [this]
        simp only [Left.neg_nonpos_iff]
        exact Int.tdiv_nonneg (by omega) hd.le
      exact h1.trans (Int.tdiv_nonneg hb hd.le)
    · have h2 : (-b).tdiv d ≤ (-a).tdiv d := by
        rw [Int.tdiv_eq_ediv (by omega) hd.le, Int.tdiv_eq_ediv (by omega) hd.le]
        exact Int.ediv_le_ediv hd (by omega)
      rw [Int.neg_tdiv, Int.neg_tdiv] at h2
      omega

/-- `normalizeDecimals` is monotone in the amount. -/
theorem normalizeDecimals_mono {a b : Int} (d1 d2 : Nat) (h : a ≤ b) :
    normalizeDecimals a d1 d2 ≤ normalizeDecimals b d1 d2 := by
  unfold normalizeDecimals
  split
  · exact h
  · split
    · exact tdiv_le_tdiv_right (by positivity) h
    · exact mul_le_mul_of_nonneg_right h (by positivity)

/-! ## Quote aggregation (src/services/quote/QuoteService.ts)

`getQuotes` dispatches `getQuote` to every registered provider, catches
each provider's failure individually, keeps the successes and sorts them
by `amountOut` descending with JavaScript's stable `Array.prototype.sort`
under the comparator
`(a, b) => a.amountOut > b.amountOut ? -1 : a.amountOut < b.amountOut ? 1 : 0`.
A stable sort for a total preorder is unique, so we embed it as a stable
insertion sort: an element is inserted before the first strictly smaller
element, hence after every earlier element that ties with it. -/

/-- Insert a quote into a descending-sorted list, after ties. -/
def insertQuoteDesc (q : Quote) : List Quote → List Quote
  | [] => [q]
  | x :: xs =>
    if q.amountOut ≥ x.amountOut then q :: x :: xs
    else x :: insertQuoteDesc q xs

/-- Stable sort by `amountOut` descending (the JS comparator in
`QuoteService.getQuotes`). -/
def sortQuotesDesc : List Quote → List Quote
  | [] => []
  | x :: xs => insertQuoteDesc x (sortQuotesDesc xs)

/-- One registered provider's `getQuote` outcome for a given request:
either the returned quote or the thrown error. -/
abbrev ProviderOutcome := Except String Quote

/-- `QuoteService.getQuotes`: each provider call's failure is caught and
excluded, then the successes are sorted best-first. -/
def getQuotes (results : List ProviderOutcome) : List Quote :=
  let successfulQuotes := results.filterMap fun r =>
    match r with
    | .ok q => some q
    | .error _ => none
  sortQuotesDesc successfulQuotes

/-- The successes extracted from the provider outcomes, in registration
order. -/
def successfulOf (results : List ProviderOutcome) : List Quote :=
  results.filterMap fun r =>
    match r with
    | .ok q => some q
    | .error _ => none

theorem getQuotes_eq_sort (results : List ProviderOutcome) :
    getQuotes results = sortQuotesDesc (successfulOf results) := rfl

theorem insertQuoteDesc_perm (q : Quote) (l : List Quote) :
    (insertQuoteDesc q l).Perm (q :: l) := by
  induction l with
  | nil => simp [insertQuoteDesc]
  | cons x xs ih =>
    simp only [insertQuoteDesc]
    split
    · exact List.Perm.refl _
    · exact (List.Perm.cons x ih).trans (List.Perm.swap q x xs)

theorem sortQuotesDesc_perm (l : List Quote) :
    (sortQuotesDesc l).Perm l := by
  induction l with
  | nil => simp [sortQuotesDesc]
  | cons x xs ih =>
    exact (insertQuoteDesc_perm x (sortQuotesDesc xs)).trans (ih.cons x)

theorem insertQuoteDesc_sorted {q : Quote} {l : List Quote}
    (hl : l.Pairwise (fun a b => b.amountOut ≤ a.amountOut)) :
    (insertQuoteDesc q l).Pairwise (fun a b => b.amountOut ≤ a.amountOut) := by
  induction l with
  | nil => simp [insertQuoteDesc]
  | cons x xs ih =>
    rcases List.pairwise_cons.mp hl with ⟨hx, hxs⟩
    simp only [insertQuoteDesc]
    split
    · rename_i hge
      refine List.pairwise_cons.mpr ⟨?_, hl⟩
      intro b hb
      rcases List.mem_cons.mp hb with hb | hb
      · subst hb; exact hge
      · exact (hx b hb).trans hge
    · rename_i hlt
      push_neg at hlt
      refine List.pairwise_cons.mpr ⟨?_, ih hxs⟩
      intro b hb
      rcases List.mem_cons.mp ((insertQuoteDesc_perm q xs).mem_iff.mp hb) with hb | hb
      · subst hb; exact hlt.le
      · exact hx b hb

theorem sortQuotesDesc_sorted (l : List Quote) :
    (sortQuotesDesc l).Pairwise (fun a b => b.amountOut ≤ a.amountOut) := by
  induction l with
  | nil => simp [sortQuotesDesc]
  | cons x xs ih => exact insertQuoteDesc_sorted ih

theorem insertQuoteDesc_filter_eq (q : Quote) (l : List Quote) (v : Int)
    (hl : l.Pairwise (fun a b => b.amountOut ≤ a.amountOut)) :
    (insertQuoteDesc q l).filter (fun x => decide (x.amountOut = v)) =
      if q.amountOut = v then
        (l.filter (fun x => decide (x.amountOut = v))).cons q
      else l.filter (fun x => decide (x.amountOut = v)) := by
  induction l with
  | nil =>
    simp only [insertQuoteDesc, List.filter]
    split <;> simp_all
  | cons x xs ih =>
    rcases List.pairwise_cons.mp hl with ⟨hx, hxs⟩
    simp only [insertQuoteDesc]
    split
    · rename_i hge
      by_cases hqv : q.amountOut = v
      · -- every element of x :: xs with value v must come after q; but q ≥ x
        -- so any tie x.amountOut = v means q.amountOut = v = x.amountOut
        simp [List.filter, hqv]
      · simp [List.filter, hqv]
    · rename_i hlt
      push_neg at hlt
      by_cases hxv : x.amountOut = v
      · -- x stays in front; q (strictly smaller than x) cannot tie with x
        have hqv : ¬ q.amountOut = v := by omega
        simp [List.filter, hxv, hqv, ih hxs]
      · simp [List.filter, hxv, ih hxs]

theorem sortQuotesDesc_filter_eq (l : List Quote) (v : Int) :
    (sortQuotesDesc l).filter (fun x => decide (x.amountOut = v)) =
      l.filter (fun x => decide (x.amountOut = v)) := by
  induction l with
  | nil => simp [sortQuotesDesc]
  | cons x xs ih =>
    simp only [sortQuotesDesc]
    rw [insertQuoteDesc_filter_eq x (sortQuotesDesc xs) v (sortQuotesDesc_sorted xs)]
    by_cases hxv : x.amountOut = v
    · simp [List.filter, hxv, ih]
    · simp [List.filter, hxv, ih]

theorem successfulOf_append_error (l1 l2 : List ProviderOutcome) (e : String) :
    successfulOf (l1 ++ Except.error e :: l2) = successfulOf (l1 ++ l2) := by
  simp [successfulOf]

/-! ## Arbitrage engine (src/strategies, `StablecoinArbitrage`)

The engine's external collaborators are modelled as oracles:
`quotes t` is the outcome of `quoteService.getQuotes` for target token `t`
(the request's `tokenIn`/`amountIn` are fixed within one search), and the
executor map sends a provider name to that executor's `execute` behaviour.
`findOpportunityGo` additionally returns the list of target tokens for
which a quote request was issued, so that stop-on-first-match is
observable. -/

/-- Arbitrage strategy configuration (src/types/arbitrage.ts). -/
structure ArbitrageConfig where
  minProfitBps : Int
  maxSlippageBps : Int
  deadlineSeconds : Int
  checkGasCost : Bool
  minBalanceThreshold : Option Int := none
  dryRun : Bool := false
deriving DecidableEq, Repr

/-- An arbitrage opportunity (src/types/arbitrage.ts). -/
structure ArbitrageOpportunity where
  provider : String
  inputToken : Token
  outputToken : Token
  amountIn : Int
  expectedAmountOut : Int
  profitBps : Int
  quote : Quote
  estimatedGas : Option Int := none
  netProfitAmount : Option Int := none
deriving DecidableEq, Repr

/-- Result of one engine run (src/types/arbitrage.ts). -/
structure ArbitrageResult where
  attempted : Bool
  success : Bool
  opportunity : Option ArbitrageOpportunity := none
  transactionHash : Option String := none
  actualAmountOut : Option Int := none
  gasUsed : Option Int := none
  error : Option String := none
  reason : Option String := none
deriving DecidableEq, Repr

/-- Parameters handed to a swap executor (src/types/executor.ts,
`SwapParams`; the signer is an opaque credential and is omitted). -/
structure SwapParamsCore where
  tokenIn : Token
  tokenOut : Token
  amountIn : Int
  minAmountOut : Int
  deadline : Int
  chainId : Nat
deriving DecidableEq, Repr

/-- Result of a swap execution (src/types/executor.ts, `SwapResult`;
the `error` field carries the error message). -/
structure SwapResult where
  success : Bool
  transactionHash : Option String := none
  amountOut : Option Int := none
  gasUsed : Option Int := none
  error : Option String := none
  provider : String
deriving DecidableEq, Repr

/-- The opportunity object built in `findOpportunity` when a quote clears
the threshold. -/
def mkOpportunity (inputToken : Token) (inputAmount : Int)
    (targetToken : Token) (q : Quote) : ArbitrageOpportunity :=
  { provider := q.provider
    inputToken := inputToken
    outputToken := targetToken
    amountIn := inputAmount
    expectedAmountOut := q.amountOut
    profitBps := calculateProfitBps inputAmount q.amountOut inputToken targetToken
    quote := q
    estimatedGas := q.estimatedGas }

/-- The inner loop of `findOpportunity`: scan one target token's quotes in
the aggregator's returned order and build an opportunity from the first
quote whose `profitBps` meets the threshold. -/
def scanQuotes (cfg : ArbitrageConfig) (inputToken : Token) (inputAmount : Int)
    (targetToken : Token) : List Quote → Option ArbitrageOpportunity
  | [] => none
  | q :: qs =>
    let profitBps := calculateProfitBps inputAmount q.amountOut inputToken targetToken
    if profitBps ≥ cfg.minProfitBps then
      some (mkOpportunity inputToken inputAmount targetToken q)
    else
      scanQuotes cfg inputToken inputAmount targetToken qs

/-- The outer loop of `findOpportunity`, instrumented with the list of
target tokens for which a quote request was issued.  A target equal to the
input token is skipped without a request; a failed `getQuotes` call is
caught and the search continues; a qualifying quote returns immediately. -/
def findOpportunityGo (cfg : ArbitrageConfig) (inputToken : Token)
    (inputAmount : Int) (quotes : Token → Except String (List Quote)) :
    List Token → Option ArbitrageOpportunity × List Token
  | [] => (none, [])
  | t :: ts =>
    if t.address = inputToken.address then
      findOpportunityGo cfg inputToken inputAmount quotes ts
    else
      match quotes t with
      | .error _ =>
        let r := findOpportunityGo cfg inputToken inputAmount quotes ts
        (r.1, t :: r.2)
      | .ok qs =>
        match scanQuotes cfg inputToken inputAmount t qs with
        | some opp => (some opp, [t])
        | none =>
          let r := findOpportunityGo cfg inputToken inputAmount quotes ts
          (r.1, t :: r.2)

/-- `StablecoinArbitrage.findOpportunity`: first profitable opportunity or
`none`. -/
def findOpportunity (cfg : ArbitrageConfig) (inputToken : Token)
    (inputAmount : Int) (quotes : Token → Except String (List Quote))
    (targetTokens : List Token) : Option ArbitrageOpportunity :=
  (findOpportunityGo cfg inputToken inputAmount quotes targetTokens).1

/-- The oracles one engine run interacts with: the balance inspector's
result, the quote service, the executor registry (each executor's
`execute` returns a result or throws), and the current unix time used for
the deadline. -/
structure RunEnv where
  balanceResult : Option (Token × Int)
  quotes : Token → Except String (List Quote)
  executors : String → Option (SwapParamsCore → Except String SwapResult)
  now : Int

/-- `StablecoinArbitrage.executeOpportunity`, instrumented with the list
of `execute` calls issued to swap executors. -/
def executeOpportunity (cfg : ArbitrageConfig) (env : RunEnv)
    (opp : ArbitrageOpportunity) : ArbitrageResult × List SwapParamsCore :=
  match env.executors opp.provider with
  | none =>
    ({ attempted := false, success := false
       reason := some ("No executor found for provider: " ++ opp.provider) }, [])
  | some exec =>
    let minAmountOut := calculateMinAmountOut opp.expectedAmountOut cfg.maxSlippageBps
    let deadline := env.now + cfg.deadlineSeconds
    let p : SwapParamsCore :=
      { tokenIn := opp.inputToken
        tokenOut := opp.outputToken
        amountIn := opp.amountIn
        minAmountOut := minAmountOut
        deadline := deadline
        chainId := opp.inputToken.chainId }
    match exec p with
    | .ok result =>
      ({ attempted := true
         success := result.success
         opportunity := some opp
         transactionHash := result.transactionHash
         actualAmountOut := result.amountOut
         gasUsed := result.gasUsed
         error := result.error }, [p])
    | .error e =>
      ({ attempted := true, success := false
         opportunity := some opp, error := some e }, [p])

/-- `StablecoinArbitrage.run`: one full engine run, instrumented with the
list of `execute` calls issued to swap executors (the engine never calls
`approveToken` itself; approvals happen only inside an executor's
`execute`). -/
def run (cfg : ArbitrageConfig) (env : RunEnv) (stablecoins : List Token) :
    ArbitrageResult × List SwapParamsCore :=
  match env.balanceResult with
  | none =>
    ({ attempted := false, success := false
       reason := some "No stablecoin balance found above threshold" }, [])
  | some (inputToken, inputAmount) =>
    let targetTokens := stablecoins.filter fun t => t.address ≠ inputToken.address
    match findOpportunity cfg inputToken inputAmount env.quotes targetTokens with
    | none =>
      ({ attempted := false, success := false
         reason := some "No profitable opportunity found" }, [])
    | some opp =>
      if cfg.dryRun then
        ({ attempted := false, success := true
           opportunity := some opp
           reason := some "Dry-run mode: opportunity identified but not executed" }, [])
      else
        executeOpportunity cfg env opp

/-! ## Swap executors (src/dex/uniswap/v3, src/dex/cowswap,
src/dex/oneinch, src/dex/uniswap/v4)

Each executor's awaited external calls (allowance read, approval
transaction, swap transaction, HTTP requests, order polling) are modelled
as oracle fields of type `Except String _`.  The executor's `execute`
body is an `Except` computation mirroring the source line by line; the
top-level `try/catch` is the final `match` that converts any thrown
error into a `success = false` result. -/

/-- A mined transaction receipt (the fields the executors read). -/
structure Receipt where
  hash : String
  gasUsed : Int
deriving DecidableEq, Repr

/-- The argument tuple of SwapRouter02's `exactInputSingle`
(src/utils/abis.ts `UNISWAP_V3_ROUTER_ABI`): note it has no deadline
component. -/
structure ExactInputSingleParams where
  tokenIn : String
  tokenOut : String
  fee : Int
  recipient : String
  amountIn : Int
  amountOutMinimum : Int
  sqrtPriceLimitX96 : Int
deriving DecidableEq, Repr

/-- The `swapParams` object built in `UniswapV3Executor.execute` and
passed to `router.exactInputSingle`. -/
def v3SwapCallParams (defaultFeeTier : Int) (recipient : String)
    (p : SwapParamsCore) : ExactInputSingleParams :=
  { tokenIn := p.tokenIn.address
    tokenOut := p.tokenOut.address
    fee := defaultFeeTier
    recipient := recipient
    amountIn := p.amountIn
    amountOutMinimum := p.minAmountOut
    sqrtPriceLimitX96 := 0 }

/-- External-call outcomes for `UniswapV3Executor`. -/
structure V3Env where
  defaultFeeTier : Int
  signerAddress : String
  allowance : Except String Int
  approveTx : Except String Unit
  swapTx : ExactInputSingleParams → Except String Receipt

/-- `UniswapV3Executor.approveToken`: read the allowance; skip when it
already covers the amount, otherwise submit an approval.  Its own
`catch` only logs and rethrows. -/
def v3ApproveToken (env : V3Env) (amount : Int) : Except String Unit := do
  let currentAllowance ← env.allowance
  if currentAllowance ≥ amount then
    pure ()
  else
    env.approveTx

/-- Body of `UniswapV3Executor.execute` inside its `try`. -/
def v3ExecuteBody (env : V3Env) (p : SwapParamsCore) : Except String Receipt := do
  v3ApproveToken env p.amountIn
  env.swapTx (v3SwapCallParams env.defaultFeeTier env.signerAddress p)

/-- `UniswapV3Executor.execute`: the `catch` converts any thrown error
into a failed result. -/
def v3Execute (env : V3Env) (p : SwapParamsCore) : SwapResult :=
  match v3ExecuteBody env p with
  | .ok receipt =>
    { success := true
      transactionHash := some receipt.hash
      amountOut := some p.minAmountOut
      gasUsed := some receipt.gasUsed
      provider := "Uniswap V3" }
  | .error e =>
    { success := false, error := some e, provider := "Uniswap V3" }

/-- CowSwap order status as reported by the API. -/
inductive CowOrderStatus where
  | stillOpen
  | fulfilled (executedBuyAmount : Option Int)
  | cancelled
  | expired
deriving DecidableEq, Repr

/-- External-call outcomes for `CowSwapExecutor`.  `maxPolls` is the
number of poll iterations the `orderTimeout` / 5s poll interval allows
before the loop condition fails. -/
structure CowEnv where
  allowance : Except String Int
  approveTx : Except String Unit
  feeQuote : Except String String
  submitOrder : Except String String
  poll : Nat → Except String CowOrderStatus
  maxPolls : Nat
  orderTimeout : Nat

/-- `CowSwapExecutor.approveToken` (log-and-rethrow catch elided). -/
def cowApproveToken (env : CowEnv) (amount : Int) : Except String Unit := do
  let currentAllowance ← env.allowance
  if currentAllowance ≥ amount then
    pure ()
  else
    env.approveTx

/-- `CowSwapExecutor.getFeeQuote`: a failure is caught and replaced by a
zero fee, so this call never throws. -/
def cowGetFeeQuote (env : CowEnv) : String :=
  match env.feeQuote with
  | .ok fee => fee
  | .error _ => "0"

/-- `CowSwapExecutor.createOrder`: fee quote (cannot throw), then signing
and submission of the order (either may throw), returning the order id. -/
def cowCreateOrder (env : CowEnv) : Except String String :=
  let _feeAmount := cowGetFeeQuote env
  env.submitOrder

/-- `CowSwapExecutor.monitorOrder`: poll the order status until a
terminal state or until the timeout window is exhausted; cancellation,
expiry, a monitoring error and the timeout all throw. -/
def cowMonitorOrder (env : CowEnv) (p : SwapParamsCore) (orderId : String) :
    Nat → Nat → Except String SwapResult
  | 0, _ =>
    .error ("CowSwap order timeout after " ++ toString env.orderTimeout
      ++ " seconds: " ++ orderId)
  | fuel + 1, i =>
    match env.poll i with
    | .error e => .error e
    | .ok (.fulfilled executedBuyAmount) =>
      .ok { success := true
            transactionHash := some orderId
            amountOut := some (executedBuyAmount.getD p.minAmountOut)
            gasUsed := some 0
            provider := "CowSwap" }
    | .ok .cancelled => .error ("Order cancelled: " ++ orderId)
    | .ok .expired => .error ("Order expired: " ++ orderId)
    | .ok .stillOpen => cowMonitorOrder env p orderId fuel (i + 1)

/-- Body of `CowSwapExecutor.execute` inside its `try`. -/
def cowExecuteBody (env : CowEnv) (p : SwapParamsCore) : Except String SwapResult := do
  cowApproveToken env p.amountIn
  let orderId ← cowCreateOrder env
  cowMonitorOrder env p orderId env.maxPolls 0

/-- `CowSwapExecutor.execute`. -/
def cowExecute (env : CowEnv) (p : SwapParamsCore) : SwapResult :=
  match cowExecuteBody env p with
  | .ok result => result
  | .error e => { success := false, error := some e, provider := "CowSwap" }

/-- The 1Inch `/swap` response fields the executor reads. -/
structure OneInchSwapData where
  txFrom : String
  txTo : String
  txData : String
  txValue : Int
  txGas : Int
  toAmount : Int
deriving DecidableEq, Repr

/-- External-call outcomes for `OneInchExecutor`. -/
structure OneInchEnv where
  signerAddress : String
  spender : Except String String
  allowance : Except String Int
  approveTx : Except String Unit
  swapData : Except String OneInchSwapData
  sendTx : Except String (Option Receipt)

/-- `OneInchExecutor.approveToken`: fetch the spender address, read the
allowance, approve when insufficient. -/
def oneInchApproveToken (env : OneInchEnv) (amount : Int) : Except String Unit := do
  let _spenderAddress ← env.spender
  let currentAllowance ← env.allowance
  if currentAllowance ≥ amount then
    pure ()
  else
    env.approveTx

/-- `OneInchExecutor.validateTransactionData`: throws on a sender
mismatch, an output below the minimum, or missing calldata. -/
def oneInchValidate (env : OneInchEnv) (d : OneInchSwapData)
    (p : SwapParamsCore) : Except String Unit :=
  if d.txFrom.toLower ≠ env.signerAddress.toLower then
    .error ("Transaction from address mismatch: expected "
      ++ env.signerAddress ++ ", got " ++ d.txFrom)
  else if d.toAmount < p.minAmountOut then
    .error ("Output amount " ++ toString d.toAmount
      ++ " is less than minimum " ++ toString p.minAmountOut)
  else if d.txData = "" ∨ d.txData = "0x" then
    .error "Invalid transaction data received from 1Inch API"
  else
    .ok ()

/-- Body of `OneInchExecutor.execute` inside its `try`. -/
def oneInchExecuteBody (env : OneInchEnv) (p : SwapParamsCore) :
    Except String (Receipt × Int) := do
  oneInchApproveToken env p.amountIn
  let swapData ← env.swapData
  oneInchValidate env swapData p
  let receiptOpt ← env.sendTx
  match receiptOpt with
  | none => .error "Transaction receipt not available"
  | some receipt => .ok (receipt, swapData.toAmount)

/-- `OneInchExecutor.execute`. -/
def oneInchExecute (env : OneInchEnv) (p : SwapParamsCore) : SwapResult :=
  match oneInchExecuteBody env p with
  | .ok (receipt, amountOut) =>
    { success := true
      transactionHash := some receipt.hash
      amountOut := some amountOut
      gasUsed := some receipt.gasUsed
      provider := "1Inch" }
  | .error e =>
    { success := false, error := some e, provider := "1Inch" }

/-- External-call outcomes for `UniswapV4Executor`.  The Universal
Router call takes the deadline as its third argument, so the V4 swap
transaction DOES embed the deadline (unlike V3). -/
structure V4Env where
  universalRouterAddress : String
  allowance : Except String Int
  approveTx : Except String Unit
  feeTierFound : Bool
  swapTx : Int → Except String Receipt

/-- `UniswapV4Executor.approveToken` (log-and-rethrow catch elided). -/
def v4ApproveToken (env : V4Env) (amount : Int) : Except String Unit := do
  let currentAllowance ← env.allowance
  if currentAllowance ≥ amount then
    pure ()
  else
    env.approveTx

/-- Body of `UniswapV4Executor.execute` inside its `try`: config check,
approval, fee-tier lookup, then `router.execute(commands, inputs,
params.deadline)`. -/
def v4ExecuteBody (env : V4Env) (p : SwapParamsCore) : Except String Receipt := do
  if env.universalRouterAddress = "" then
    throw "Uniswap V4 Universal Router address not configured"
  v4ApproveToken env p.amountIn
  if !env.feeTierFound then
    throw "Default fee tier not found"
  env.swapTx p.deadline

/-- `UniswapV4Executor.execute`. -/
def v4Execute (env : V4Env) (p : SwapParamsCore) : SwapResult :=
  match v4ExecuteBody env p with
  | .ok receipt =>
    { success := true
      transactionHash := some receipt.hash
      amountOut := some p.minAmountOut
      gasUsed := some receipt.gasUsed
      provider := "Uniswap V4" }
  | .error e =>
    { success := false, error := some e, provider := "Uniswap V4" }

/-- A swap result is uniform: either a success with no error, or a
failure with a populated error. -/
def resultUniform (r : SwapResult) : Prop :=
  (r.success = true ∧ r.error = none) ∨ (r.success = false ∧ r.error.isSome)

theorem cowMonitorOrder_ok {env : CowEnv} {p : SwapParamsCore}
    {orderId : String} {fuel i : Nat} {r : SwapResult}
    (h : cowMonitorOrder env p orderId fuel i = .ok r) :
    r.success = true ∧ r.error = none := by
  induction fuel generalizing i with
  | zero => simp [cowMonitorOrder] at h
  | succ fuel ih =>
    simp only [cowMonitorOrder] at h
    rcases hp : env.poll i with e | st
    · rw [hp] at h; simp at h
    · rw [hp] at h
      cases st with
      | stillOpen => exact ih h
      | fulfilled amt => simp at h; subst h; exact ⟨rfl, rfl⟩
      | cancelled => simp at h
      | expired => simp at h

/-! ## Concrete fixtures used by witnesses and counterexamples -/

/-- A 6-decimal stablecoin fixture. -/
def tokenA : Token :=
  { address := "0xaaaaaaaaaaaaaaaaaaaaaaaaaaaaaaaaaaaaaaaa"
    decimals := 6, symbol := "USDT", chainId := 137 }

/-- A second 6-decimal stablecoin fixture. -/
def tokenB : Token :=
  { address := "0xbbbbbbbbbbbbbbbbbbbbbbbbbbbbbbbbbbbbbbbb"
    decimals := 6, symbol := "USDC", chainId := 137 }

/-- An 18-decimal stablecoin fixture. -/
def tokenD : Token :=
  { address := "0xdddddddddddddddddddddddddddddddddddddddd"
    decimals := 18, symbol := "DAI", chainId := 137 }

/-! ## Claim theorems: amount and profit arithmetic -/

/-- C9: for non-negative `expectedAmountOut` X and slippageBps s in
[0, 10000], `calculateMinAmountOut X 0 = X`, `calculateMinAmountOut X
10000 = 0`, the result is monotonically non-increasing in s, and the
result never exceeds X. -/
theorem calculateMinAmountOut_slippage_bounds (X s : Int)
    (hX : 0 ≤ X) (hs0 : 0 ≤ s) (hs1 : s ≤ 10000) :
    calculateMinAmountOut X 0 = X ∧
    calculateMinAmountOut X 10000 = 0 ∧
    (∀ s', s ≤ s' → s' ≤ 10000 → calculateMinAmountOut X s' ≤ calculateMinAmountOut X s) ∧
    calculateMinAmountOut X s ≤ X := by
  have hmono : ∀ u v : Int, u ≤ v → v ≤ 10000 →
      calculateMinAmountOut X v ≤ calculateMinAmountOut X u := by
    intro u v huv _
    unfold calculateMinAmountOut
    apply tdiv_le_tdiv_right (by norm_num)
    exact mul_le_mul_of_nonneg_left (by omega) hX
  have hzero : calculateMinAmountOut X 0 = X := by
    unfold calculateMinAmountOut
    norm_num
  refine ⟨hzero, ?_, fun s' h1 h2 => hmono s s' h1 h2, ?_⟩
  · unfold calculateMinAmountOut
    norm_num
  · calc calculateMinAmountOut X s ≤ calculateMinAmountOut X 0 := hmono 0 s hs0 hs1
      _ = X := hzero

/-- C9 witness: instantiated at X = 100, s = 50. -/
theorem calculateMinAmountOut_slippage_bounds_witness :
    (0 : Int) ≤ 100 ∧ (0 : Int) ≤ 50 ∧ (50 : Int) ≤ 10000 ∧
    calculateMinAmountOut 100 0 = 100 ∧
    calculateMinAmountOut 100 10000 = 0 ∧
    calculateMinAmountOut 100 60 ≤ calculateMinAmountOut 100 50 ∧
    calculateMinAmountOut 100 50 ≤ 100 := by
  have h := calculateMinAmountOut_slippage_bounds 100 50
    (by norm_num) (by norm_num) (by norm_num)
  exact ⟨by norm_num, by norm_num, by norm_num,
    h.1, h.2.1, h.2.2.1 60 (by norm_num) (by norm_num), h.2.2.2⟩

/-- C10: `calculateProfitBps` is total at the zero-input boundary: for
every tokens and output amount, an input amount of 0 yields 0 instead of
dividing by the input amount. -/
theorem calculateProfitBps_total_at_zero (amountOut : Int) (tokenIn tokenOut : Token) :
    calculateProfitBps 0 amountOut tokenIn tokenOut = 0 := by
  simp [calculateProfitBps]

/-- C7 counterexample: `calculateProfitBps` is NOT strictly increasing in
`amountOut`: with amountIn = 1000000 (6-decimal tokens on both sides),
outputs 1000000 and 1000001 give the same profitBps. -/
theorem calculateProfitBps_not_strictly_increasing :
    (1000000 : Int) < 1000001 ∧
    ¬ (calculateProfitBps 1000000 1000000 tokenA tokenB <
        calculateProfitBps 1000000 1000001 tokenA tokenB) := by
  constructor
  · norm_num
  · decide

/-- C7 amended: for fixed amountIn > 0, `calculateProfitBps` is monotone
non-decreasing (not strictly increasing) in `amountOut`: the bps value is
an integer obtained by truncated division, so nearby outputs can share a
value. -/
theorem calculateProfitBps_mono (amountIn a1 a2 : Int) (tokenIn tokenOut : Token)
    (hpos : 0 < amountIn) (h : a1 ≤ a2) :
    calculateProfitBps amountIn a1 tokenIn tokenOut ≤
      calculateProfitBps amountIn a2 tokenIn tokenOut := by
  unfold calculateProfitBps
  have hne : ¬ amountIn = 0 := by omega
  simp only [hne, if_false]
  apply tdiv_le_tdiv_right hpos
  have hn := normalizeDecimals_mono tokenOut.decimals tokenIn.decimals h
  have := sub_le_sub_right hn amountIn
  exact mul_le_mul_of_nonneg_right this (by norm_num)

/-- C7 witness: instantiated at amountIn = 1000000, outputs 1000000 ≤
1005000. -/
theorem calculateProfitBps_mono_witness :
    (0 : Int) < 1000000 ∧ (1000000 : Int) ≤ 1005000 ∧
    calculateProfitBps 1000000 1000000 tokenA tokenB ≤
      calculateProfitBps 1000000 1005000 tokenA tokenB :=
  ⟨by norm_num, by norm_num,
    calculateProfitBps_mono 1000000 1000000 1005000 tokenA tokenB
      (by norm_num) (by norm_num)⟩

/-- C8: for non-negative a and decimal counts d1 ≤ d2, scaling up from d1
to d2 and back down returns exactly a; down-scaling in general is
truncation toward zero, i.e. floor division for non-negative amounts. -/
theorem normalizeDecimals_round_trip (a b : Int) (d1 d2 : Nat)
    (_ha : 0 ≤ a) (hb : 0 ≤ b) (hd : d1 ≤ d2) :
    normalizeDecimals (normalizeDecimals a d1 d2) d2 d1 = a ∧
    (d1 < d2 →
      normalizeDecimals b d2 d1 * 10 ^ (d2 - d1) ≤ b ∧
      b < (normalizeDecimals b d2 d1 + 1) * 10 ^ (d2 - d1)) := by
  constructor
  · by_cases heq : d1 = d2
    · subst heq
      simp [normalizeDecimals]
    · have hlt : d1 < d2 := by omega
      have h1 : normalizeDecimals a d1 d2 = a * 10 ^ (d2 - d1) := by
        unfold normalizeDecimals
        simp only [heq, if_false]
        have : ¬ d1 > d2 := by omega
        simp [this]
      have h2 : normalizeDecimals (a * 10 ^ (d2 - d1)) d2 d1 =
          (a * 10 ^ (d2 - d1)).tdiv (10 ^ (d2 - d1)) := by
        unfold normalizeDecimals
        have hne : ¬ d2 = d1 := by omega
        have hgt : d2 > d1 := hlt
        simp [hne, hgt]
      rw [h1, h2]
      exact Int.mul_tdiv_cancel a (by positivity)
  · intro hlt
    have hne : ¬ d2 = d1 := by omega
    have hdown : normalizeDecimals b d2 d1 = b.tdiv (10 ^ (d2 - d1)) := by
      unfold normalizeDecimals
      simp [hne, hlt]
    have hpow : (0 : Int) < 10 ^ (d2 - d1) := by positivity
    rw [hdown, Int.tdiv_eq_ediv hb hpow.le]
    exact ⟨Int.ediv_mul_le b hpow.ne.symm, Int.lt_ediv_add_one_mul_self b hpow⟩

/-- C8 witness: instantiated at a = 123456 (6 → 18 decimals) and
b = 1999999999999 scaled 18 → 6. -/
theorem normalizeDecimals_round_trip_witness :
    (0 : Int) ≤ 123456 ∧ (0 : Int) ≤ 1999999999999 ∧ (6 : Nat) ≤ 18 ∧ (6 : Nat) < 18 ∧
    normalizeDecimals (normalizeDecimals 123456 6 18) 18 6 = 123456 ∧
    normalizeDecimals 1999999999999 18 6 * 10 ^ (18 - 6) ≤ 1999999999999 ∧
    (1999999999999 : Int) < (normalizeDecimals 1999999999999 18 6 + 1) * 10 ^ (18 - 6) := by
  have h := normalizeDecimals_round_trip 123456 1999999999999 6 18
    (by norm_num) (by norm_num) (by norm_num)
  have h2 := h.2 (by norm_num)
  exact ⟨by norm_num, by norm_num, by norm_num, by norm_num, h.1, h2.1, h2.2⟩

/-! ## Claim theorems: search gate and quote aggregation -/

/-- A quote clears the engine's sole viability gate. -/
def quoteQualifies (cfg : ArbitrageConfig) (tokenIn : Token) (amt : Int)
    (targetToken : Token) (q : Quote) : Prop :=
  calculateProfitBps amt q.amountOut tokenIn targetToken ≥ cfg.minProfitBps

instance (cfg : ArbitrageConfig) (tokenIn : Token) (amt : Int)
    (targetToken : Token) (q : Quote) :
    Decidable (quoteQualifies cfg tokenIn amt targetToken q) := by
  unfold quoteQualifies; infer_instance

/-- C3: the comparison `profitBps ≥ minProfitBps` is the sole viability
gate of the search: a quote list yields an opportunity iff some quote
meets it; a single quote with profitBps exactly `minProfitBps` is
accepted, and one with `minProfitBps - 1` is rejected. -/
theorem scanQuotes_threshold_gate (cfg : ArbitrageConfig) (tokenIn : Token)
    (amt : Int) (targetToken : Token) (qs : List Quote) (q : Quote) :
    ((scanQuotes cfg tokenIn amt targetToken qs).isSome ↔
      ∃ q' ∈ qs, quoteQualifies cfg tokenIn amt targetToken q') ∧
    (calculateProfitBps amt q.amountOut tokenIn targetToken = cfg.minProfitBps →
      scanQuotes cfg tokenIn amt targetToken [q] =
        some (mkOpportunity tokenIn amt targetToken q)) ∧
    (calculateProfitBps amt q.amountOut tokenIn targetToken = cfg.minProfitBps - 1 →
      scanQuotes cfg tokenIn amt targetToken [q] = none) := by
  refine ⟨?_, ?_, ?_⟩
  · induction qs with
    | nil => simp [scanQuotes]
    | cons x xs ih =>
      simp only [scanQuotes]
      by_cases hx : calculateProfitBps amt x.amountOut tokenIn targetToken ≥ cfg.minProfitBps
      · simp [hx, quoteQualifies]
      · simp only [hx, if_false, ih]
        constructor
        · rintro ⟨q', hq', hqual⟩
          exact ⟨q', List.mem_cons_of_mem x hq', hqual⟩
        · rintro ⟨q', hq', hqual⟩
          rcases List.mem_cons.mp hq' with h | h
          · subst h; exact absurd hqual hx
          · exact ⟨q', h, hqual⟩
  · intro h
    simp [scanQuotes, h]
  · intro h
    have : ¬ calculateProfitBps amt q.amountOut tokenIn targetToken ≥ cfg.minProfitBps := by
      omega
    simp [scanQuotes, this]

/-- A configuration fixture: threshold 30 bps, dry-run off. -/
def cfgLive : ArbitrageConfig :=
  { minProfitBps := 30, maxSlippageBps := 50, deadlineSeconds := 300
    checkGasCost := false, minBalanceThreshold := some 1000000, dryRun := false }

/-- A quote fixture at exactly 30 bps of profit on 1000000 units in. -/
def quoteAt30 : Quote := { provider := "CowSwap", amountOut := 1003000 }

/-- A quote fixture at exactly 29 bps of profit on 1000000 units in. -/
def quoteAt29 : Quote := { provider := "CowSwap", amountOut := 1002900 }

/-- C3 witness: with minProfitBps = 30, a quote at exactly 30 bps is
accepted and a quote at 29 bps is rejected. -/
theorem scanQuotes_threshold_gate_witness :
    calculateProfitBps 1000000 quoteAt30.amountOut tokenA tokenB = cfgLive.minProfitBps ∧
    scanQuotes cfgLive tokenA 1000000 tokenB [quoteAt30] =
      some (mkOpportunity tokenA 1000000 tokenB quoteAt30) ∧
    calculateProfitBps 1000000 quoteAt29.amountOut tokenA tokenB = cfgLive.minProfitBps - 1 ∧
    scanQuotes cfgLive tokenA 1000000 tokenB [quoteAt29] = none := by
  refine ⟨by decide, ?_, by decide, ?_⟩
  · exact (scanQuotes_threshold_gate cfgLive tokenA 1000000 tokenB [] quoteAt30).2.1
      (by decide)
  · exact (scanQuotes_threshold_gate cfgLive tokenA 1000000 tokenB [] quoteAt29).2.2
      (by decide)

/-- C4: `getQuotes` returns exactly the quotes of the sources whose call
succeeded (a permutation of the successes), sorted descending by output
amount, with ties preserving source registration order (filtering to any
fixed output value preserves the original sequence), and a source that
throws is excluded without affecting the rest or making `getQuotes` fail
(deleting a failing source's outcome leaves the result unchanged). -/
theorem getQuotes_isolation_and_order (results l1 l2 : List ProviderOutcome)
    (e : String) (v : Int) :
    (getQuotes results).Perm (successfulOf results) ∧
    (getQuotes results).Pairwise (fun a b => b.amountOut ≤ a.amountOut) ∧
    (getQuotes results).filter (fun x => decide (x.amountOut = v)) =
      (successfulOf results).filter (fun x => decide (x.amountOut = v)) ∧
    getQuotes (l1 ++ Except.error e :: l2) = getQuotes (l1 ++ l2) := by
  refine ⟨sortQuotesDesc_perm _, sortQuotesDesc_sorted _, sortQuotesDesc_filter_eq _ v, ?_⟩
  rw [getQuotes_eq_sort, getQuotes_eq_sort, successfulOf_append_error]

/-! ## Claim theorems: swap executors -/

theorem cowExecuteBody_ok {env : CowEnv} {p : SwapParamsCore} {r : SwapResult}
    (h : cowExecuteBody env p = .ok r) : r.success = true ∧ r.error = none := by
  unfold cowExecuteBody at h
  cases ha : cowApproveToken env p.amountIn with
  | error e => rw [ha] at h; simp [Bind.bind, Except.bind] at h
  | ok u =>
    rw [ha] at h
    cases hc : cowCreateOrder env with
    | error e => rw [hc] at h; simp [Bind.bind, Except.bind] at h
    | ok oid =>
      rw [hc] at h
      simp only [Bind.bind, Except.bind] at h
      exact cowMonitorOrder_ok h

/-- C5: every swap executor variant's `execute` is uniform at its
boundary: it never throws (it is a total function into `SwapResult`),
every internally thrown error — approval failure, on-chain revert, order
cancellation/expiry, polling timeout — is converted into a returned
result with `success = false` and that error populated, and every
returned result is either a success with no error or a failure with a
populated error. -/
theorem executors_never_throw (env3 : V3Env) (envC : CowEnv) (envO : OneInchEnv)
    (env4 : V4Env) (p : SwapParamsCore) (e : String) :
    resultUniform (v3Execute env3 p) ∧
    resultUniform (cowExecute envC p) ∧
    resultUniform (oneInchExecute envO p) ∧
    resultUniform (v4Execute env4 p) ∧
    (v3ExecuteBody env3 p = .error e →
      v3Execute env3 p = { success := false, error := some e, provider := "Uniswap V3" }) ∧
    (cowExecuteBody envC p = .error e →
      cowExecute envC p = { success := false, error := some e, provider := "CowSwap" }) ∧
    (oneInchExecuteBody envO p = .error e →
      oneInchExecute envO p = { success := false, error := some e, provider := "1Inch" }) ∧
    (v4ExecuteBody env4 p = .error e →
      v4Execute env4 p = { success := false, error := some e, provider := "Uniswap V4" }) := by
  refine ⟨?_, ?_, ?_, ?_, ?_, ?_, ?_, ?_⟩
  · cases hb : v3ExecuteBody env3 p <;> simp [v3Execute, resultUniform, hb]
  · cases hb : cowExecuteBody envC p with
    | error err => simp [cowExecute, resultUniform, hb]
    | ok r =>
      have := cowExecuteBody_ok hb
      simp [cowExecute, resultUniform, hb, this.1, this.2]
  · cases hb : oneInchExecuteBody envO p <;> simp [oneInchExecute, resultUniform, hb]
  · cases hb : v4ExecuteBody env4 p <;> simp [v4Execute, resultUniform, hb]
  · intro h; simp [v3Execute, h]
  · intro h; simp [cowExecute, h]
  · intro h; simp [oneInchExecute, h]
  · intro h; simp [v4Execute, h]

/-- A swap-parameter fixture with a live (far-future) deadline. -/
def pLive : SwapParamsCore :=
  { tokenIn := tokenA, tokenOut := tokenB, amountIn := 1000000
    minAmountOut := 997985, deadline := 4102444800, chainId := 137 }

/-- The same swap-parameter fixture with an already-expired deadline. -/
def pExpired : SwapParamsCore := { pLive with deadline := 0 }

/-- A V3 environment whose allowance read throws. -/
def env3Boom : V3Env :=
  { defaultFeeTier := 3000, signerAddress := "0xsigner"
    allowance := .error "boom", approveTx := .ok ()
    swapTx := fun _ => .ok { hash := "0xhash", gasUsed := 150000 } }

/-- A CowSwap environment whose allowance read throws. -/
def envCBoom : CowEnv :=
  { allowance := .error "boom", approveTx := .ok ()
    feeQuote := .ok "100", submitOrder := .ok "order-1"
    poll := fun _ => .ok .stillOpen, maxPolls := 0, orderTimeout := 300 }

/-- A 1Inch environment whose spender lookup throws. -/
def envOBoom : OneInchEnv :=
  { signerAddress := "0xsigner", spender := .error "boom"
    allowance := .ok 0, approveTx := .ok ()
    swapData := .ok { txFrom := "0xsigner", txTo := "0xrouter", txData := "0xdead"
                      txValue := 0, txGas := 200000, toAmount := 1003000 }
    sendTx := .ok (some { hash := "0xhash", gasUsed := 150000 }) }

/-- A V4 environment whose allowance read throws. -/
def env4Boom : V4Env :=
  { universalRouterAddress := "0xrouter", allowance := .error "boom"
    approveTx := .ok (), feeTierFound := true
    swapTx := fun _ => .ok { hash := "0xhash", gasUsed := 150000 } }

/-- C5 witness: concrete environments in which each executor's body
throws "boom"; every `execute` returns a failed result carrying it. -/
theorem executors_never_throw_witness :
    v3ExecuteBody env3Boom pLive = .error "boom" ∧
    cowExecuteBody envCBoom pLive = .error "boom" ∧
    oneInchExecuteBody envOBoom pLive = .error "boom" ∧
    v4ExecuteBody env4Boom pLive = .error "boom" ∧
    v3Execute env3Boom pLive = { success := false, error := some "boom", provider := "Uniswap V3" } ∧
    cowExecute envCBoom pLive = { success := false, error := some "boom", provider := "CowSwap" } ∧
    oneInchExecute envOBoom pLive = { success := false, error := some "boom", provider := "1Inch" } ∧
    v4Execute env4Boom pLive = { success := false, error := some "boom", provider := "Uniswap V4" } := by
  have h := executors_never_throw env3Boom envCBoom envOBoom env4Boom pLive "boom"
  exact ⟨rfl, rfl, rfl, rfl,
    h.2.2.2.2.1 rfl, h.2.2.2.2.2.1 rfl, h.2.2.2.2.2.2.1 rfl, h.2.2.2.2.2.2.2 rfl⟩

/-- C6 (code-bug evidence): the transaction submitted by
`UniswapV3Executor.execute` embeds the request's `minAmountOut` as
`amountOutMinimum`, but does NOT embed the request's deadline: the
SwapRouter02 `exactInputSingle` tuple has no deadline component and the
executor never reads `params.deadline`, so the entire execution is
independent of the deadline — in particular an already-expired deadline
produces the identical transaction as a live one, and the chain cannot
revert a late execution. -/
theorem v3_deadline_not_embedded :
    (∀ (env : V3Env) (p : SwapParamsCore) (d : Int),
      v3Execute env { p with deadline := d } = v3Execute env p) ∧
    (∀ (defaultFeeTier : Int) (recipient : String) (p : SwapParamsCore),
      (v3SwapCallParams defaultFeeTier recipient p).amountOutMinimum = p.minAmountOut) ∧
    v3SwapCallParams 3000 "0xsigner" pExpired = v3SwapCallParams 3000 "0xsigner" pLive ∧
    pExpired.deadline ≠ pLive.deadline := by
  exact ⟨fun env p d => rfl, fun _ _ _ => rfl, rfl, by decide⟩

/-! ## Claim theorems: engine search order and dry-run -/

theorem scanQuotes_eq_none_iff (cfg : ArbitrageConfig) (tin : Token) (amt : Int)
    (tgt : Token) (qs : List Quote) :
    scanQuotes cfg tin amt tgt qs = none ↔
      ∀ q ∈ qs, ¬ quoteQualifies cfg tin amt tgt q := by
  induction qs with
  | nil => simp [scanQuotes]
  | cons x xs ih =>
    simp only [scanQuotes]
    by_cases hx : calculateProfitBps amt x.amountOut tin tgt ≥ cfg.minProfitBps
    · rw [if_pos hx]
      constructor
      · intro h; simp at h
      · intro hall
        exact absurd hx (hall x (List.mem_cons_self x xs))
    · rw [if_neg hx, ih]
      constructor
      · intro hall q hq
        rcases List.mem_cons.mp hq with h | h
        · subst h; exact hx
        · exact hall q h
      · intro hall q hq
        exact hall q (List.mem_cons_of_mem x hq)

theorem scanQuotes_eq_some (cfg : ArbitrageConfig) (tin : Token) (amt : Int)
    (tgt : Token) :
    ∀ (qs : List Quote) (opp : ArbitrageOpportunity),
      scanQuotes cfg tin amt tgt qs = some opp →
      ∃ qpre q qpost, qs = qpre ++ q :: qpost ∧
        (∀ q' ∈ qpre, ¬ quoteQualifies cfg tin amt tgt q') ∧
        quoteQualifies cfg tin amt tgt q ∧
        opp = mkOpportunity tin amt tgt q := by
  intro qs
  induction qs with
  | nil => intro opp h; simp [scanQuotes] at h
  | cons x xs ih =>
    intro opp h
    simp only [scanQuotes] at h
    by_cases hx : calculateProfitBps amt x.amountOut tin tgt ≥ cfg.minProfitBps
    · rw [if_pos hx] at h
      injection h with h
      exact ⟨[], x, xs, rfl, by simp, hx, h.symm⟩
    · rw [if_neg hx] at h
      obtain ⟨qpre, q, qpost, hdec, hpre, hqual, hopp⟩ := ih opp h
      refine ⟨x :: qpre, q, qpost, by rw [List.cons_append, hdec], ?_, hqual, hopp⟩
      intro q' hq'
      rcases List.mem_cons.mp hq' with hh | hh
      · subst hh; exact hx
      · exact hpre q' hh

/-- A target token's combinations were exhausted without a qualifying
quote: its request failed, or every returned quote is below threshold. -/
def targetExhausted (cfg : ArbitrageConfig) (tin : Token) (amt : Int)
    (quotes : Token → Except String (List Quote)) (t : Token) : Prop :=
  match quotes t with
  | .error _ => True
  | .ok qs => ∀ q ∈ qs, ¬ quoteQualifies cfg tin amt t q

/-- Targets that are actually searched: those not equal to the input
token (equal addresses are skipped with no quote request). -/
def activeTargets (tin : Token) (targets : List Token) : List Token :=
  targets.filter fun t => t.address ≠ tin.address

/-- What C1 asserts of a search outcome `(res, reqs)`: if no opportunity
was found, every active target was requested and exhausted; if one was
found, the requested targets are exactly the active prefix ending at the
winning target (no request for any later target), every earlier target is
exhausted, and the opportunity is built from the first qualifying quote,
in returned order, of the winning target. -/
def FindOpportunitySpec (cfg : ArbitrageConfig) (tin : Token) (amt : Int)
    (quotes : Token → Except String (List Quote)) (targets : List Token)
    (res : Option ArbitrageOpportunity) (reqs : List Token) : Prop :=
  (res = none → reqs = activeTargets tin targets ∧
    ∀ t ∈ activeTargets tin targets, targetExhausted cfg tin amt quotes t) ∧
  (∀ opp, res = some opp →
    ∃ pre t post,
      activeTargets tin targets = pre ++ t :: post ∧
      reqs = pre ++ [t] ∧
      (∀ t' ∈ pre, targetExhausted cfg tin amt quotes t') ∧
      ∃ qs, quotes t = .ok qs ∧
        ∃ qpre q qpost, qs = qpre ++ q :: qpost ∧
          (∀ q' ∈ qpre, ¬ quoteQualifies cfg tin amt t q') ∧
          quoteQualifies cfg tin amt t q ∧
          opp = mkOpportunity tin amt t q)

/-- C1: the instrumented search satisfies the stop-on-first-match
specification: the result is built from the first quote, in target-list
order and then in the aggregator's returned quote order, whose profitBps
meets the threshold; no quote request is issued for any target after the
winning one; and an exhausted search returns `none` after requesting
every active target. -/
theorem findOpportunity_stop_on_first_match (cfg : ArbitrageConfig)
    (tin : Token) (amt : Int) (quotes : Token → Except String (List Quote))
    (targets : List Token) :
    FindOpportunitySpec cfg tin amt quotes targets
      (findOpportunityGo cfg tin amt quotes targets).1
      (findOpportunityGo cfg tin amt quotes targets).2 := by
  induction targets with
  | nil =>
    constructor
    · intro _
      exact ⟨rfl, by simp [activeTargets]⟩
    · intro opp h
      simp [findOpportunityGo] at h
  | cons t ts ih =>
    by_cases hskip : t.address = tin.address
    · have hgo : findOpportunityGo cfg tin amt quotes (t :: ts) =
          findOpportunityGo cfg tin amt quotes ts := by
        simp [findOpportunityGo, hskip]
      have hat : activeTargets tin (t :: ts) = activeTargets tin ts := by
        simp [activeTargets, List.filter_cons, hskip]
      unfold FindOpportunitySpec at ih ⊢
      rw [hgo, hat]
      exact ih
    · have hat : activeTargets tin (t :: ts) = t :: activeTargets tin ts := by
        simp [activeTargets, List.filter_cons, hskip]
      cases hq : quotes t with
      | error err =>
        have hgo : findOpportunityGo cfg tin amt quotes (t :: ts) =
            ((findOpportunityGo cfg tin amt quotes ts).1,
              t :: (findOpportunityGo cfg tin amt quotes ts).2) := by
          simp [findOpportunityGo, hskip, hq]
        have hex : targetExhausted cfg tin amt quotes t := by
          simp [targetExhausted, hq]
        unfold FindOpportunitySpec at ih ⊢
        rw [hgo, hat]
        constructor
        · intro hnone
          obtain ⟨hreq, hall⟩ := ih.1 hnone
          refine ⟨by rw [hreq], ?_⟩
          intro t' ht'
          rcases List.mem_cons.mp ht' with hh | hh
          · subst hh; exact hex
          · exact hall t' hh
        · intro opp hsome
          obtain ⟨pre, t0, post, hdec, hreqs, hpre, hrest⟩ := ih.2 opp hsome
          refine ⟨t :: pre, t0, post, by rw [hdec]; rfl, by rw [hreqs]; rfl, ?_, hrest⟩
          intro t' ht'
          rcases List.mem_cons.mp ht' with hh | hh
          · subst hh; exact hex
          · exact hpre t' hh
      | ok qs =>
        cases hscan : scanQuotes cfg tin amt t qs with
        | some opp0 =>
          have hgo : findOpportunityGo cfg tin amt quotes (t :: ts) = (some opp0, [t]) := by
            simp [findOpportunityGo, hskip, hq, hscan]
          unfold FindOpportunitySpec
          rw [hgo, hat]
          constructor
          · intro h; simp at h
          · intro opp hsome
            injection hsome with hsome
            subst hsome
            obtain ⟨qpre, q, qpost, hdec, hpre, hqual, hopp⟩ :=
              scanQuotes_eq_some cfg tin amt t qs opp0 hscan
            exact ⟨[], t, activeTargets tin ts, rfl, rfl, by simp,
              qs, hq, qpre, q, qpost, hdec, hpre, hqual, hopp⟩
        | none =>
          have hgo : findOpportunityGo cfg tin amt quotes (t :: ts) =
              ((findOpportunityGo cfg tin amt quotes ts).1,
                t :: (findOpportunityGo cfg tin amt quotes ts).2) := by
            simp [findOpportunityGo, hskip, hq, hscan]
          have hex : targetExhausted cfg tin amt quotes t := by
            simp only [targetExhausted, hq]
            exact (scanQuotes_eq_none_iff cfg tin amt t qs).mp hscan
          unfold FindOpportunitySpec at ih ⊢
          rw [hgo, hat]
          constructor
          · intro hnone
            obtain ⟨hreq, hall⟩ := ih.1 hnone
            refine ⟨by rw [hreq], ?_⟩
            intro t' ht'
            rcases List.mem_cons.mp ht' with hh | hh
            · subst hh; exact hex
            · exact hall t' hh
          · intro opp hsome
            obtain ⟨pre, t0, post, hdec, hreqs, hpre, hrest⟩ := ih.2 opp hsome
            refine ⟨t :: pre, t0, post, by rw [hdec]; rfl, by rw [hreqs]; rfl, ?_, hrest⟩
            intro t' ht'
            rcases List.mem_cons.mp ht' with hh | hh
            · subst hh; exact hex
            · exact hpre t' hh

/-- C2: with `dryRun = true`, a run whose search finds a qualifying
opportunity issues no `execute` call to any swap executor (the trace of
executor invocations is empty — and since every executor calls
`approveToken` only from inside `execute`, no approval is issued either),
and returns `attempted = false`, `success = true` with the opportunity
attached. -/
theorem run_dry_run_no_execution (cfg : ArbitrageConfig) (env : RunEnv)
    (coins : List Token) (tok : Token) (amt : Int) (opp : ArbitrageOpportunity)
    (hdry : cfg.dryRun = true)
    (hbal : env.balanceResult = some (tok, amt))
    (hopp : findOpportunity cfg tok amt env.quotes
      (coins.filter fun t => t.address ≠ tok.address) = some opp) :
    run cfg env coins =
      ({ attempted := false, success := true, opportunity := some opp
         reason := some "Dry-run mode: opportunity identified but not executed" },
        []) := by
  simp only [run, hbal, hopp, hdry, if_true]

/-- The dry-run configuration fixture. -/
def cfgDry : ArbitrageConfig := { cfgLive with dryRun := true }

/-- The opportunity the dry-run witness scenario finds. -/
def oppDry : ArbitrageOpportunity := mkOpportunity tokenA 1000000 tokenB quoteAt30

/-- The dry-run witness environment: a balance on `tokenA`, one provider
quoting 30 bps on `tokenB`, and an executor registry that would accept
any provider (to show it is nevertheless not consulted). -/
def envDry : RunEnv :=
  { balanceResult := some (tokenA, 1000000)
    quotes := fun t => if t.address = tokenB.address then .ok [quoteAt30] else .error "no source"
    executors := fun _ => some (fun _ => .ok { success := true, provider := "CowSwap" })
    now := 1700000000 }

/-- C2 witness: the concrete dry-run scenario. -/
theorem run_dry_run_no_execution_witness :
    cfgDry.dryRun = true ∧
    envDry.balanceResult = some (tokenA, 1000000) ∧
    findOpportunity cfgDry tokenA 1000000 envDry.quotes
      ([tokenA, tokenB].filter fun t => t.address ≠ tokenA.address) = some oppDry ∧
    run cfgDry envDry [tokenA, tokenB] =
      ({ attempted := false, success := true, opportunity := some oppDry
         reason := some "Dry-run mode: opportunity identified but not executed" },
        []) := by
  refine ⟨rfl, rfl, by decide, ?_⟩
  exact run_dry_run_no_execution cfgDry envDry [tokenA, tokenB] tokenA 1000000 oppDry
    rfl rfl (by decide)

end Trading
